import Mathlib

/-!
Shallow embedding of `src/esputil.c` (cpq/esputil).

Covered here: the SLIP frame codec (`slip_send`, `slip_recv`), the command
framing and per-frame response handling of `cmd`, the chip registry and
`chip_detect`, the FLASH_BEGIN request body built in `flashbin`, the
ELF-to-image builder `mkbin`, and the Intel HEX encoder/decoder
(`mkhex`/`unhex`).

Machine integers are modelled as `Nat` with explicit reductions modulo
`2^8`/`2^16`/`2^32` where the C code truncates.  Byte buffers are `List Nat`.
Out-of-bounds reads of C buffers (possible only on inputs the tool itself
never produces) are modelled as reading `0`.
-/

/-- Little-endian bytes of a 16-bit value (`memcpy` of a `uint16_t`). -/
def le16 (v : Nat) : List Nat := [v % 256, v / 256 % 256]

/-- Little-endian bytes of a 32-bit value (`memcpy`/`fwrite` of a `uint32_t`). -/
def le32 (v : Nat) : List Nat :=
  [v % 256, v / 256 % 256, v / 65536 % 256, v / 16777216 % 256]

/-! ## SLIP frame codec (RFC 1055), lines 63-156 of `esputil.c` -/

/-- `enum { END = 192, ESC = 219, ESC_END = 220, ESC_ESC = 221 }`. -/
def SLIP_END : Nat := 192

/-- The SLIP escape byte. -/
def SLIP_ESC : Nat := 219

/-- The escaped encoding of a literal `END` byte. -/
def SLIP_ESC_END : Nat := 220

/-- The escaped encoding of a literal `ESC` byte. -/
def SLIP_ESC_ESC : Nat := 221

/-- SLIP decoder state (`struct slip`): `buf` holds the currently buffered
bytes (the C `buf[0..len-1]`, so `len = buf.length`), `size` is the buffer
capacity, `mode` the operation mode (`false` = serial, `true` = network),
`prev` the previously read byte. -/
structure Slip where
  buf : List Nat
  size : Nat
  mode : Bool
  prev : Nat
deriving Repr, DecidableEq

/-- The bytes `slip_send` emits for one payload byte: the two-byte escape
sequence for `END` and `ESC`, the literal byte otherwise. -/
def slip_send_byte (b : Nat) : List Nat :=
  if b = SLIP_END then [SLIP_ESC, SLIP_ESC_END]
  else if b = SLIP_ESC then [SLIP_ESC, SLIP_ESC_ESC]
  else [b]

/-- All bytes `slip_send` emits for a payload: delimiter, escaped payload,
delimiter.  (The C function emits through a per-byte sink `fn`; the model
collects the emitted bytes.) -/
def slip_send (p : List Nat) : List Nat :=
  SLIP_END :: p.flatMap slip_send_byte ++ [SLIP_END]

/-- Process one incoming byte (`slip_recv`).  Returns the updated state and,
when the byte completed a packet (the C function returns `res = len` and the
caller reads `buf[0..res-1]`), the packet's bytes. -/
def slip_recv (c : Nat) (s : Slip) : Slip × Option (List Nat) :=
  let step : List Nat × Option (List Nat) :=
    if s.mode then
      if s.prev = SLIP_ESC ∧ c = SLIP_ESC_END then (s.buf ++ [SLIP_END], none)
      else if s.prev = SLIP_ESC ∧ c = SLIP_ESC_ESC then (s.buf ++ [SLIP_ESC], none)
      else if c = SLIP_END then (s.buf, some s.buf)
      else if c ≠ SLIP_ESC then (s.buf ++ [c], none)
      else (s.buf, none)
    else (s.buf, none)
  let buf2 := if s.mode ∧ s.size ≤ step.1.length then [] else step.1
  let buf3 := if c = SLIP_END then [] else buf2
  (⟨buf3, s.size, if c = SLIP_END then !s.mode else s.mode, c⟩, step.2)

/-- Feed a byte list to the decoder one byte at a time, collecting the
completed packets in order. -/
def slip_recv_list (bs : List Nat) (s : Slip) : Slip × List (List Nat) :=
  match bs with
  | [] => (s, [])
  | c :: rest =>
      let r1 := slip_recv c s
      let r2 := slip_recv_list rest r1.1
      (r2.1, r1.2.toList ++ r2.2)

theorem slip_recv_size_eq (c : Nat) (s : Slip) : (slip_recv c s).1.size = s.size := rfl

theorem slip_recv_len_le (c : Nat) (s : Slip) (h : s.buf.length ≤ s.size) :
    (slip_recv c s).1.buf.length ≤ s.size := by
  simp only [slip_recv]
  split_ifs <;> simp_all <;> omega

theorem slip_recv_list_len_le (bs : List Nat) (s : Slip) (h : s.buf.length ≤ s.size) :
    (slip_recv_list bs s).1.buf.length ≤ s.size ∧ (slip_recv_list bs s).1.size = s.size := by
  induction bs generalizing s with
  | nil => exact ⟨h, rfl⟩
  | cons c rest ih =>
      have h1 := slip_recv_len_le c s h
      have h2 := slip_recv_size_eq c s
      have h3 := ih (slip_recv c s).1 (h2 ▸ h1)
      simp only [slip_recv_list]
      exact ⟨h2 ▸ h3.1, h2 ▸ h3.2⟩

/-- Claim C5: processing any byte sequence one byte at a time, the codec's
buffered length never exceeds the capacity and the buffer is never grown;
moreover, whenever an append (a network-mode byte that is stored) makes the
length reach the capacity, the length is silently reset to zero. -/
theorem slip_buffer_invariant (bs : List Nat) (s : Slip) (h : s.buf.length ≤ s.size) :
    ((slip_recv_list bs s).1.buf.length ≤ s.size ∧ (slip_recv_list bs s).1.size = s.size) ∧
    (∀ c t, t.mode = true → c ≠ SLIP_END → c ≠ SLIP_ESC →
      t.size ≤ t.buf.length + 1 → (slip_recv c t).1.buf.length = 0) := by
  refine ⟨slip_recv_list_len_le bs s h, ?_⟩
  intro c t hm hc1 hc2 hsz
  simp only [slip_recv]
  split_ifs <;> simp_all [SLIP_END, SLIP_ESC, SLIP_ESC_END, SLIP_ESC_ESC]

/-- Witness for C5 at a concrete state and input. -/
theorem slip_buffer_invariant_witness :
    (((slip_recv_list [65, 66, 192, 67] ⟨[1], 2, true, 0⟩).1.buf.length ≤ 2 ∧
      (slip_recv_list [65, 66, 192, 67] ⟨[1], 2, true, 0⟩).1.size = 2) ∧
    (∀ c t, t.mode = true → c ≠ SLIP_END → c ≠ SLIP_ESC →
      t.size ≤ t.buf.length + 1 → (slip_recv c t).1.buf.length = 0)) :=
  slip_buffer_invariant [65, 66, 192, 67] ⟨[1], 2, true, 0⟩ (by decide)

/-- Claim C6: the decoder's mode flag flips exactly when the input byte is the
frame delimiter `0xC0`; no other byte value ever changes the mode. -/
theorem slip_mode_flips_iff (c : Nat) (s : Slip) :
    ((slip_recv c s).1.mode ≠ s.mode) ↔ c = 192 := by
  by_cases h : c = 192
  · simp only [slip_recv, h, SLIP_END]
    cases s.mode <;> simp
  · simp [slip_recv, h, SLIP_END]

/-! ## Claim C2: SLIP round-trip -/

theorem slip_recv_list_cons (c : Nat) (bs : List Nat) (s : Slip) :
    slip_recv_list (c :: bs) s =
      ((slip_recv_list bs (slip_recv c s).1).1,
       (slip_recv c s).2.toList ++ (slip_recv_list bs (slip_recv c s).1).2) := rfl

theorem slip_recv_serial_end (s : Slip) (hm : s.mode = false) :
    slip_recv 192 s = (⟨[], s.size, true, 192⟩, none) := by
  simp [slip_recv, hm, SLIP_END]

theorem slip_recv_net_end (s : Slip) (hm : s.mode = true) :
    slip_recv 192 s = (⟨[], s.size, false, 192⟩, some s.buf) := by
  simp [slip_recv, hm, SLIP_END, SLIP_ESC, SLIP_ESC_END, SLIP_ESC_ESC]

theorem slip_recv_net_lit (c : Nat) (s : Slip) (hm : s.mode = true) (hp : s.prev ≠ 219)
    (hc1 : c ≠ 192) (hc2 : c ≠ 219) (hov : s.buf.length + 1 < s.size) :
    slip_recv c s = (⟨s.buf ++ [c], s.size, true, c⟩, none) := by
  have hno : ¬ (s.size ≤ (s.buf ++ [c]).length) := by simp; omega
  simp [slip_recv, hm, hp, hc1, hc2, hno, SLIP_END, SLIP_ESC, SLIP_ESC_END, SLIP_ESC_ESC]
  omega

theorem slip_recv_net_esc (s : Slip) (hm : s.mode = true) (hov : s.buf.length < s.size) :
    slip_recv 219 s = (⟨s.buf, s.size, true, 219⟩, none) := by
  have hno : ¬ (s.size ≤ s.buf.length) := by omega
  simp [slip_recv, hm, hno, SLIP_END, SLIP_ESC, SLIP_ESC_END, SLIP_ESC_ESC]

theorem slip_recv_net_esc_end (s : Slip) (hm : s.mode = true) (hp : s.prev = 219)
    (hov : s.buf.length + 1 < s.size) :
    slip_recv 220 s = (⟨s.buf ++ [192], s.size, true, 220⟩, none) := by
  have hno : ¬ (s.size ≤ (s.buf ++ [192]).length) := by simp; omega
  simp [slip_recv, hm, hp, hno, SLIP_END, SLIP_ESC, SLIP_ESC_END, SLIP_ESC_ESC]
  omega

theorem slip_recv_net_esc_esc (s : Slip) (hm : s.mode = true) (hp : s.prev = 219)
    (hov : s.buf.length + 1 < s.size) :
    slip_recv 221 s = (⟨s.buf ++ [219], s.size, true, 221⟩, none) := by
  have hno : ¬ (s.size ≤ (s.buf ++ [219]).length) := by simp; omega
  simp [slip_recv, hm, hp, hno, SLIP_END, SLIP_ESC, SLIP_ESC_END, SLIP_ESC_ESC]
  omega

theorem slip_recv_list_mid (B : List Nat) (acc : List Nat) (size prev : Nat)
    (hp : prev ≠ 219) (h : acc.length + B.length < size) :
    slip_recv_list (B.flatMap slip_send_byte ++ [192]) ⟨acc, size, true, prev⟩ =
      (⟨[], size, false, 192⟩, [acc ++ B]) := by
  induction B generalizing acc prev with
  | nil =>
      simp only [List.flatMap_nil, List.nil_append, slip_recv_list_cons,
        slip_recv_net_end ⟨acc, size, true, prev⟩ rfl]
      simp [slip_recv_list]
  | cons b rest ih =>
      have hlen : acc.length < size := by simp at h; omega
      have hlen1 : acc.length + 1 < size := by simp at h; omega
      have hrest : ∀ x : Nat, (acc ++ [x]).length + rest.length < size := by
        intro x; simp at h ⊢; omega
      by_cases hb1 : b = 192
      · subst hb1
        have hsb : slip_send_byte 192 = [219, 220] := rfl
        simp only [List.flatMap_cons, hsb, List.append_assoc, List.cons_append,
          List.nil_append, slip_recv_list_cons,
          slip_recv_net_esc ⟨acc, size, true, prev⟩ rfl hlen]
        simp only [slip_recv_list_cons,
          slip_recv_net_esc_end ⟨acc, size, true, 219⟩ rfl rfl hlen1]
        simp only [ih (acc ++ [192]) 220 (by decide) (hrest 192)]
        simp
      · by_cases hb2 : b = 219
        · subst hb2
          have hsb : slip_send_byte 219 = [219, 221] := rfl
          simp only [List.flatMap_cons, hsb, List.append_assoc, List.cons_append,
            List.nil_append, slip_recv_list_cons,
            slip_recv_net_esc ⟨acc, size, true, prev⟩ rfl hlen]
          simp only [slip_recv_list_cons,
            slip_recv_net_esc_esc ⟨acc, size, true, 219⟩ rfl rfl hlen1]
          simp only [ih (acc ++ [219]) 221 (by decide) (hrest 219)]
          simp
        · have hsb : slip_send_byte b = [b] := by
            simp [slip_send_byte, SLIP_END, SLIP_ESC, hb1, hb2]
          simp only [List.flatMap_cons, hsb, List.append_assoc, List.cons_append,
            List.nil_append, slip_recv_list_cons,
            slip_recv_net_lit b ⟨acc, size, true, prev⟩ rfl hp hb1 hb2 hlen1]
          simp only [ih (acc ++ [b]) b hb2 (hrest b)]
          simp

/-- Claim C2 (amended): for every byte sequence `B` shorter than the decoder's
buffer capacity, feeding the bytes of `slip_send B` one at a time into a SLIP
decoder started in passthrough mode with an empty buffer yields exactly one
completed packet, whose buffered contents equal `B`. -/
theorem slip_send_roundtrip (B : List Nat) (size prev : Nat) (h : B.length < size) :
    (slip_recv_list (slip_send B) ⟨[], size, false, prev⟩).2 = [B] := by
  have hs : slip_send B = 192 :: (B.flatMap slip_send_byte ++ [192]) := by
    simp [slip_send, SLIP_END]
  rw [hs, slip_recv_list_cons, slip_recv_serial_end _ rfl]
  rw [slip_recv_list_mid B [] size 192 (by decide) (by simpa using h)]
  simp

/-- Claim C2 counterexample: with a buffer of capacity 1, the encoding of the
one-byte sequence `[65]` decodes to a single empty packet (the append reached
the capacity and silently reset the buffer), not to `[65]`: the round-trip
fails as soon as the payload does not fit the decoder's buffer. -/
theorem slip_send_roundtrip_cex :
    (slip_recv_list (slip_send [65]) ⟨[], 1, false, 0⟩).2 = [[]] ∧
    (slip_recv_list (slip_send [65]) ⟨[], 1, false, 0⟩).2 ≠ [[65]] := by decide

/-- Witness for C2 at a concrete payload exercising both escape sequences. -/
theorem slip_send_roundtrip_witness :
    (slip_recv_list (slip_send [192, 219, 7]) ⟨[], 4, false, 0⟩).2 = [[192, 219, 7]] :=
  slip_send_roundtrip [192, 219, 7] 4 0 (by decide)

/-! ## Chip registry (lines 74-111) and command protocol (lines 516-556) -/

/-- Chip ids from the `#define CHIP_ID_*` block. -/
def CHIP_ID_ESP32 : Nat := 0x00f01d83

/-- Chip id of the ESP32-S2. -/
def CHIP_ID_ESP32_S2 : Nat := 0x000007c6

/-- Chip id of the ESP32-C3 ECO 1/2. -/
def CHIP_ID_ESP32_C3_ECO_1_2 : Nat := 0x6921506f

/-- Chip id of the ESP32-C3 ECO3. -/
def CHIP_ID_ESP32_C3_ECO3 : Nat := 0x1b31506f

/-- Chip id of the ESP8266. -/
def CHIP_ID_ESP8266 : Nat := 0xfff0c101

/-- Chip id of the ESP32-S3-BETA2. -/
def CHIP_ID_ESP32_S3_BETA2 : Nat := 0xeb004136

/-- Chip id of the ESP32-S3-BETA3. -/
def CHIP_ID_ESP32_S3_BETA3 : Nat := 0x9

/-- Chip id of the ESP32-C6-BETA. -/
def CHIP_ID_ESP32_C6_BETA : Nat := 0x0da1806f

/-- `struct chip`: id, display name, bootloader flash offset (`bla`). -/
structure Chip where
  id : Nat
  name : String
  bla : Nat
deriving Repr, DecidableEq

/-- The closed chip registry `s_known_chips`. -/
def s_known_chips : List Chip :=
  [⟨0, "Unknown", 0⟩,
   ⟨CHIP_ID_ESP8266, "ESP8266", 0⟩,
   ⟨CHIP_ID_ESP32, "ESP32", 4096⟩,
   ⟨CHIP_ID_ESP32_C3_ECO_1_2, "ESP32-C3-ECO2", 0⟩,
   ⟨CHIP_ID_ESP32_C3_ECO3, "ESP32-C3-ECO3", 0⟩,
   ⟨CHIP_ID_ESP32_S2, "ESP32-S2", 4096⟩,
   ⟨CHIP_ID_ESP32_S3_BETA2, "ESP32-S3-BETA2", 0⟩,
   ⟨CHIP_ID_ESP32_S3_BETA3, "ESP32-S3-BETA3", 0⟩,
   ⟨CHIP_ID_ESP32_C6_BETA, "ESP32-C6-BETA", 0⟩]

/-- Outcome of `chip_detect`: success sets `ctx->chip`, the two `fail(...)`
calls are the mismatch and the unknown-id exits. -/
inductive DetectResult where
  | ok (c : Chip)
  | mismatch
  | unknownId
deriving Repr, DecidableEq

/-- `chip_detect`, given the pre-pinned chip id (`ctx->chip.id`, 0 when the
user supplied no `-chip` option) and the 32-bit id read from ROM address
`0x40001000` (`read32` success is assumed; the serial exchange itself is
outside the model). -/
def chip_detect (pinned chipid : Nat) : DetectResult :=
  match s_known_chips.find? (fun c => c.id == chipid) with
  | some c => if pinned ≠ 0 ∧ pinned ≠ chipid then .mismatch else .ok c
  | none => .unknownId

/-- Claim C9: a detected chip id of 0 with no pre-pinned chip succeeds and
selects the reserved "Unknown" descriptor (id 0, bootloader offset 0), and
detection reports the unknown-chip error exactly for ids absent from the
registry. -/
theorem chip_detect_zero_and_unknown :
    chip_detect 0 0 = .ok ⟨0, "Unknown", 0⟩ ∧
    ∀ pinned chipid, chip_detect pinned chipid = .unknownId ↔
      chipid ∉ s_known_chips.map Chip.id := by
  constructor
  · rfl
  · intro pinned chipid
    unfold chip_detect
    cases hf : s_known_chips.find? (fun c => c.id == chipid) with
    | none =>
        have hall := List.find?_eq_none.mp hf
        simp only [List.mem_map]
        constructor
        · intro _ ⟨c, hc, hid⟩
          exact absurd (by simpa using hid) (by simpa using hall c hc)
        · intro _
          trivial
    | some c =>
        have hmem := List.mem_of_find?_eq_some hf
        have hid : c.id = chipid := by
          have := List.find?_some hf
          simpa using this
        constructor
        · intro hcontra
          by_cases hpin : pinned ≠ 0 ∧ pinned ≠ chipid <;> simp [hpin] at hcontra
        · intro hnot
          exact absurd (List.mem_map.mpr ⟨c, hmem, hid⟩) hnot

/-- Bytes of the request frame `cmd` builds before SLIP wrapping (lines
518-523): the 8-byte header `[0, op, len (LE16), checksum (LE32)]` followed by
the body.  Every call site passes a body shorter than 2^16, so the `uint16_t`
length parameter equals `body.length`. -/
def cmd_encode (op : Nat) (body : List Nat) (cs : Nat) : List Nat :=
  [0, op % 256] ++ le16 body.length ++ le32 cs ++ body

/-- Claim C7: `send(op=10, body=0x40001000 LE, cs=0)` produces exactly the
8-byte header `00 0A 04 00 00 00 00 00` followed by the 4-byte body. -/
theorem cmd_encode_read_reg :
    cmd_encode 10 (le32 0x40001000) 0 =
      [0x00, 0x0a, 0x04, 0x00, 0x00, 0x00, 0x00, 0x00] ++ [0x00, 0x10, 0x00, 0x40] := by
  decide

/-- Acceptance and status extraction that `cmd`'s read loop applies to one
assembled SLIP frame (lines 540-546): frames shorter than 10 bytes or whose
first two bytes are not `(0x01, op)` are skipped; otherwise the error code is
taken from the status tail at `r-2` (chip id 0 or ESP8266) or `r-4`. -/
def cmd_process_frame (chip_id op : Nat) (frame : List Nat) : Option Nat :=
  let r := frame.length
  if r < 10 ∨ frame.getD 0 0 ≠ 1 ∨ frame.getD 1 0 ≠ op then none
  else
    let eofs := if chip_id = 0 ∨ chip_id = CHIP_ID_ESP8266 then r - 2 else r - 4
    some (if frame.getD eofs 0 ≠ 0 then frame.getD (eofs + 1) 0 else 0)

/-- Status tail read at a given offset, as §4.C of the spec words it: the
byte at the offset is a non-zero error flag, the next byte the error code. -/
def status_tail_code (frame : List Nat) (eofs : Nat) : Nat :=
  if frame.getD eofs 0 ≠ 0 then frame.getD (eofs + 1) 0 else 0

/-- Claim C1 counterexample: with the default "Unknown" chip descriptor
(id 0), the accepted 10-byte frame `[1, 8, 0, 0, 0, 0, 0, 0, 1, 7]` yields
error code 7 (status tail at `len-2`), while extraction at `len-4` — which
the claim asserts for every chip other than the ESP8266 — would yield 0. -/
theorem cmd_status_offset_cex :
    cmd_process_frame 0 8 [1, 8, 0, 0, 0, 0, 0, 0, 1, 7] = some 7 ∧
    status_tail_code [1, 8, 0, 0, 0, 0, 0, 0, 1, 7] (10 - 4) = 0 := by decide

/-- Claim C1 (amended): for every accepted response frame (length ≥ 10, first
byte 1, second byte the pending opcode), the status tail is extracted at
offset `len-2` when the chip id is `0xfff0c101` (ESP8266) **or** 0 (the
unknown default), and at `len-4` for every other chip id. -/
theorem cmd_status_offset (chip_id op : Nat) (frame : List Nat)
    (h10 : 10 ≤ frame.length) (h0 : frame.getD 0 0 = 1) (h1 : frame.getD 1 0 = op) :
    cmd_process_frame chip_id op frame =
      some (status_tail_code frame
        (if chip_id = CHIP_ID_ESP8266 ∨ chip_id = 0
         then frame.length - 2 else frame.length - 4)) := by
  unfold cmd_process_frame status_tail_code
  have hnot : ¬ (frame.length < 10 ∨ frame.getD 0 0 ≠ 1 ∨ frame.getD 1 0 ≠ op) := by
    push_neg
    exact ⟨by omega, h0, h1⟩
  rw [if_neg hnot]
  by_cases hc : chip_id = 0 ∨ chip_id = CHIP_ID_ESP8266
  · rw [if_pos hc, if_pos (Or.symm hc)]
  · rw [if_neg hc, if_neg (fun h => hc (Or.symm h))]

/-- Witness for C1 at a concrete chip id and frame. -/
theorem cmd_status_offset_witness :
    cmd_process_frame 5 8 [1, 8, 0, 0, 0, 0, 0, 0, 1, 7] =
      some (status_tail_code [1, 8, 0, 0, 0, 0, 0, 0, 1, 7]
        (if (5 : Nat) = CHIP_ID_ESP8266 ∨ (5 : Nat) = 0 then 10 - 2 else 10 - 4)) :=
  cmd_status_offset 5 8 [1, 8, 0, 0, 0, 0, 0, 0, 1, 7] (by decide) (by decide) (by decide)

/-! ## Claim C3: the FLASH_BEGIN request body (`flashbin`, lines 891-903) -/

/-- The S2/S3/C3/C6 chip-id test guarding the extra fifth FLASH_BEGIN word. -/
def flash_begin_has_fifth (id : Nat) : Bool :=
  (id == CHIP_ID_ESP32_S2) || (id == CHIP_ID_ESP32_S3_BETA2) ||
  (id == CHIP_ID_ESP32_S3_BETA3) || (id == CHIP_ID_ESP32_C6_BETA) ||
  (id == CHIP_ID_ESP32_C3_ECO_1_2) || (id == CHIP_ID_ESP32_C3_ECO3)

/-- The FLASH_BEGIN body `flashbin` passes to `cmd`: the five-word `uint32_t`
array `d1 = {size, num_blocks, block_size, flash_offset, encrypted}` with
`block_size = 4096` and `encrypted = 0`, of which only
`d1size = sizeof(d1) - 4` bytes — plus 4 for the S2/S3/C3/C6 chips — are
sent. -/
def flash_begin_body (id size flash_offset : Nat) : List Nat :=
  let block_size := 4096
  let num_blocks := ((size + block_size - 1) % 4294967296) / block_size
  let d1 := le32 size ++ le32 num_blocks ++ le32 block_size ++ le32 flash_offset ++ le32 0
  let d1size := 5 * 4 - 4 + (if flash_begin_has_fifth id then 4 else 0)
  d1.take d1size

/-- Claim C3 counterexample: on the ESP32 (no fifth-word chip) the FLASH_BEGIN
body is 16 bytes — the claim asserts 20 bytes for every chip. -/
theorem flash_begin_body_cex :
    (flash_begin_body CHIP_ID_ESP32 4096 0).length = 16 ∧
    ¬ (flash_begin_body CHIP_ID_ESP32 4096 0).length = 20 := by decide

/-- Claim C3 (amended): the FLASH_BEGIN body is the four little-endian 32-bit
words `[size, num_blocks, block_size=4096, offset]` (16 bytes); for the
S2/S3/C3/C6 chip ids the fifth word `encrypted = 0` is also sent, so the body
grows by 4 bytes to 20. -/
theorem flash_begin_body_layout (id size flash_offset : Nat) :
    flash_begin_body id size flash_offset =
      le32 size ++ le32 (((size + 4095) % 4294967296) / 4096) ++ le32 4096 ++
        le32 flash_offset ++ (if flash_begin_has_fifth id then le32 0 else []) ∧
    (flash_begin_body id size flash_offset).length =
      (if flash_begin_has_fifth id then 20 else 16) := by
  cases h : flash_begin_has_fifth id <;>
    simp [flash_begin_body, le32, h]

/-! ## `mkbin`: ELF to image builder (lines 1027-1132) -/

/-- `align_to(n, to) = ((n + to - 1) / to) * to` (the divisor is named `al`
here because `to` is a Lean keyword). -/
def align_to (n al : Nat) : Nat := (n + al - 1) / al * al

/-- `checksum2`: XOR-fold of a byte buffer onto `v`. -/
def checksum2 (v : Nat) (buf : List Nat) : Nat := buf.foldl (fun a b => a ^^^ b) v

/-- `checksum`: XOR-fold starting from `0xEF`. -/
def checksum (buf : List Nat) : Nat := checksum2 0xef buf

/-- One ELF32 program header, carrying its load address and the `p_filesz`
bytes at `p_offset` in the file. -/
structure Elf32_Phdr where
  p_vaddr : Nat
  payload : List Nat
deriving Repr, DecidableEq

/-- The parsed ELF input of `mkbin`: entry point, `e_phnum`, and the program
headers at `e_phoff`. -/
structure ElfFile where
  e_entry : Nat
  e_phnum : Nat
  phdrs : List Elf32_Phdr
deriving Repr, DecidableEq

/-- `elf_get_num_segments`: returns `e->e_phnum`. -/
def elf_get_num_segments (e : ElfFile) : Nat := e.e_phnum

/-- `elf_get_phdr`: returns `phdr[no]`, shifted by one when the first program
header has `p_filesz == 0` (GCC's empty initial phdr).  An out-of-range read
(junk memory in C) is modelled as an empty segment. -/
def elf_get_phdr (e : ElfFile) (no : Nat) : Elf32_Phdr :=
  let no1 := if (e.phdrs.headD ⟨0, []⟩).payload.length = 0 then no + 1 else no
  e.phdrs.getD no1 ⟨0, []⟩

/-- The bytes `mkbin` writes for one segment: load address, size aligned to 4,
the payload, and the zero padding up to the aligned size. -/
def mkbin_seg_bytes (h : Elf32_Phdr) : List Nat :=
  le32 h.p_vaddr ++ le32 (align_to h.payload.length 4) ++ h.payload ++
    List.replicate (align_to h.payload.length 4 - h.payload.length) 0

/-- The segment loop of `mkbin` (`for (i = 0; i < num_segments; i++)`):
returns the written bytes and the final running checksum. -/
def mkbin_loop (e : ElfFile) (num_segments i cs : Nat) : List Nat × Nat :=
  if i < num_segments then
    let h := elf_get_phdr e i
    let r := mkbin_loop e num_segments (i + 1) (checksum2 cs h.payload)
    (mkbin_seg_bytes h ++ r.1, r.2)
  else ([], cs)
termination_by num_segments - i

/-- The common header `{0xe9, 1, 0, 0}` after `common_hdr[1] = num_segments`. -/
def mkbin_common_hdr (num_segments : Nat) : List Nat := [0xe9, num_segments, 0, 0]

/-- The 16-byte extended header, with the ESP32-S2 override of byte 0. -/
def mkbin_extended_hdr (chip_id : Nat) : List Nat :=
  if chip_id = 0x000007c6 then
    [0x00, 0, 0, 0, 2, 0, 0, 0, 0, 0, 0, 0, 0, 0, 0, 0]
  else
    [0xee, 0, 0, 0, 2, 0, 0, 0, 0, 0, 0, 0, 0, 0, 0, 0]

/-- Everything `mkbin` writes before the final padding and checksum byte:
common header (with `num_segments` truncated to `uint8_t`), entry point,
extended header, and the segment loop's output. -/
def mkbin_pre (chip_id : Nat) (e : ElfFile) : List Nat :=
  let num_segments := elf_get_num_segments e % 256
  mkbin_common_hdr num_segments ++ le32 e.e_entry ++ mkbin_extended_hdr chip_id ++
    (mkbin_loop e num_segments 0 0xef).1

/-- The full image `mkbin` writes: `mkbin_pre`, zero padding to one byte short
of the next 16-byte boundary, and the checksum byte. -/
def mkbin (chip_id : Nat) (e : ElfFile) : List Nat :=
  let pre := mkbin_pre chip_id e
  pre ++ List.replicate (align_to (pre.length + 1) 16 - pre.length - 1) 0 ++
    [(mkbin_loop e (elf_get_num_segments e % 256) 0 0xef).2]

theorem align_to_16_mod (n : Nat) : align_to n 16 % 16 = 0 := by
  unfold align_to
  exact Nat.mul_mod_left _ 16

theorem le_align_to_16 (n : Nat) : n ≤ align_to n 16 := by
  unfold align_to
  omega

theorem mkbin_length (chip_id : Nat) (e : ElfFile) :
    (mkbin chip_id e).length = align_to ((mkbin_pre chip_id e).length + 1) 16 := by
  have h := le_align_to_16 ((mkbin_pre chip_id e).length + 1)
  simp [mkbin]
  omega

/-- Claim C8: the image `mkbin` emits ends with a single checksum byte (the
XOR-fold of the segment payloads starting from `0xEF`) at a file offset
congruent to 15 mod 16, so the total length is a multiple of 16. -/
theorem mkbin_tail_alignment (chip_id : Nat) (e : ElfFile) :
    (mkbin chip_id e).length % 16 = 0 ∧
    ((mkbin chip_id e).length - 1) % 16 = 15 ∧
    (mkbin chip_id e).getLast? =
      some (mkbin_loop e (elf_get_num_segments e % 256) 0 0xef).2 := by
  have hlen := mkbin_length chip_id e
  have hmod := align_to_16_mod ((mkbin_pre chip_id e).length + 1)
  have hge := le_align_to_16 ((mkbin_pre chip_id e).length + 1)
  refine ⟨by omega, by omega, ?_⟩
  show (mkbin_pre chip_id e ++ _ ++ _).getLast? = _
  rw [List.getLast?_concat]

/-- Claim C10 helper: the segment loop concatenates exactly the segments
`range' i n` in order. -/
theorem mkbin_loop_bytes (e : ElfFile) (n : Nat) : ∀ i cs,
    (mkbin_loop e (i + n) i cs).1 =
      ((List.range' i n).map (fun k => mkbin_seg_bytes (elf_get_phdr e k))).flatten := by
  induction n with
  | zero =>
      intro i cs
      unfold mkbin_loop
      simp
  | succ m ih =>
      intro i cs
      unfold mkbin_loop
      rw [if_pos (by omega)]
      simp only []
      have harith : i + (m + 1) = (i + 1) + m := by omega
      rw [harith, ih (i + 1)]
      simp [List.range'_succ]

/-- Claim C10: the segment-count byte at offset 1 of the `mkbin` image is
`e_phnum` reduced modulo 256 (the `uint8_t` truncation of
`elf_get_num_segments`), and the segment loop writes exactly that reduced
number of segments. -/
theorem mkbin_phnum_truncated (chip_id : Nat) (e : ElfFile) :
    (mkbin chip_id e).get? 1 = some (e.e_phnum % 256) ∧
    (mkbin_loop e (elf_get_num_segments e % 256) 0 0xef).1 =
      ((List.range (e.e_phnum % 256)).map
        (fun k => mkbin_seg_bytes (elf_get_phdr e k))).flatten := by
  constructor
  · simp [mkbin, mkbin_pre, mkbin_common_hdr, elf_get_num_segments]
  · have h := mkbin_loop_bytes e (elf_get_num_segments e % 256) 0 0xef
    simp only [Nat.zero_add] at h
    rw [h, List.range_eq_range']
    rfl

/-! ## Intel HEX encoder and decoder (`mkhex` lines 1135-1169, `unhex` lines 816-866) -/

/-- Lowercase hex digit character (ASCII code) of a value below 16, as
`printf("%x")` prints it. -/
def hexDigitChar (n : Nat) : Nat := if n < 10 then 48 + n else 87 + n

/-- The two characters `printf("%02x", v)` prints for the byte-sized values
every call site passes. -/
def hex2 (v : Nat) : List Nat := [hexDigitChar (v / 16 % 16), hexDigitChar (v % 16)]

/-- The four characters `printf("%04x", v)` prints for `v < 65536`. -/
def hex4 (v : Nat) : List Nat := hex2 (v / 256 % 256) ++ hex2 (v % 256)

/-- The line checksum of `printhexline`: `(~cs + 1) & 255` over the running
`unsigned` sum of type, length, both address bytes and the data bytes. -/
def printhexcs (ty len addr : Nat) (data : List Nat) : Nat :=
  (256 - (data.foldl (fun a b => a + b) (ty + len + addr / 256 % 256 + addr % 256)) % 256) % 256

/-- The characters of one `printhexline` record before the trailing newline:
`:LLAAAATT<data>CC`. -/
def printhexbody (ty len addr : Nat) (data : List Nat) : List Nat :=
  58 :: (hex2 len ++ hex4 (addr % 65536) ++ hex2 ty ++ data.flatMap hex2 ++
    hex2 (printhexcs ty len addr data))

/-- `printhexline`: one record plus the newline. -/
def printhexline (ty len addr : Nat) (data : List Nat) : List Nat :=
  printhexbody ty len addr data ++ [10]

/-- `printhexhiaddrline`: the type-4 extended-linear-address record carrying
the upper 16 bits of `addr`. -/
def printhexhiaddrline (addr : Nat) : List Nat :=
  printhexline 4 2 0 [addr / 16777216 % 256, addr / 65536 % 256]

/-- The flush-time high-address check of the `mkhex` read loop:
`if (addr >= 0xffff && !(addr & 0xffff)) printhexhiaddrline(addr)`. -/
def mkhexHiCheck (addr : Nat) : List Nat :=
  if 65535 ≤ addr ∧ addr % 65536 = 0 then printhexhiaddrline addr else []

/-- The `mkhex` read loop for one input file, byte for byte as the C `for`
loop runs it: each byte is appended to `buf`; when `buf` reaches 16 bytes the
chunk is flushed (high-address check, then a type-0 record at
`addr & 0xffff`); at EOF a final flush runs with whatever `buf` holds, the
high-address check alone when `buf` is empty. -/
def mkhexFileLoop (addr : Nat) (buf : List Nat) : List Nat → List Nat
  | [] =>
      mkhexHiCheck addr ++
        (if buf.length = 0 then [] else printhexline 0 buf.length (addr % 65536) buf)
  | c :: rest =>
      if 16 ≤ (buf ++ [c]).length then
        mkhexHiCheck addr ++ printhexline 0 (buf ++ [c]).length (addr % 65536) (buf ++ [c]) ++
          mkhexFileLoop (addr + (buf ++ [c]).length) [] rest
      else mkhexFileLoop addr (buf ++ [c]) rest

/-- The same loop, restated per 16-byte chunk (`mkhexFileLoop_eq` below
proves the two agree when started with an empty `buf`). -/
def mkhexLoop (addr : Nat) (rem : List Nat) : List Nat :=
  if rem.length = 0 then mkhexHiCheck addr
  else if rem.length < 16 then
    mkhexHiCheck addr ++ printhexline 0 rem.length (addr % 65536) rem
  else
    mkhexHiCheck addr ++ printhexline 0 16 (addr % 65536) (rem.take 16) ++
      mkhexLoop (addr + 16) (rem.drop 16)
termination_by rem.length

/-- `mkhex` for a single `(address, file)` pair: the unconditional leading
type-4 record, the read loop, and the final type-1 EOF record. -/
def mkhex (addr : Nat) (B : List Nat) : List Nat :=
  printhexhiaddrline addr ++ mkhexFileLoop addr [] B ++ printhexline 1 0 0 []

/-- `isspace` in the C locale, on ASCII codes. -/
def isspace_c (c : Nat) : Bool := c == 32 || (9 ≤ c && c ≤ 13)

/-- The line-assembly loop of `unhex`: non-space characters accumulate into
`tmp`; a line is processed when a newline arrives (or when 600 characters,
the size of `tmp`, have accumulated); characters after the last newline are
discarded at EOF. -/
def splitLinesAux : List Nat → List Nat → List (List Nat)
  | [], _ => []
  | c :: rest, acc =>
      let acc1 := if isspace_c c then acc else acc ++ [c]
      if 600 ≤ acc1.length ∨ c = 10 then acc1 :: splitLinesAux rest []
      else splitLinesAux rest acc1

/-- One character of `hex_to_ul` (the C conditional chain; `Nat` subtraction
truncates where the C unsigned arithmetic would wrap, which no valid hex
digit reaches). -/
def hexVal (c : Nat) : Nat :=
  if 48 ≤ c ∧ c ≤ 57 then c - 48
  else if 65 ≤ c ∧ c ≤ 70 then c - 55
  else c - 87

/-- `hex_to_ul(s, len)`: the left fold of `v <<= 4; v |= digit`. -/
def hex_to_ul (t : List Nat) : Nat := t.foldl (fun v c => (v <<< 4) ||| hexVal c) 0

/-- Decoder state of `unhex`: the extended-linear-address `upper`, the `next`
write cursor, the open output file (`out`) as (start address, bytes written so
far), and the closed files in creation order. -/
structure UnhexState where
  upper : Nat
  next : Nat
  cur : Option (Nat × List Nat)
  done : List (Nat × List Nat)
deriving Repr, DecidableEq

/-- Closing the open output file, if any (`fclose(out)`). -/
def unhexClose (st : UnhexState) : List (Nat × List Nat) :=
  match st.cur with
  | none => st.done
  | some f => st.done ++ [f]

/-- The data bytes of a record: `hex_to_ul(tmp + 9 + i * 2, 2)` for `i < len`. -/
def unhexDataBytes (t : List Nat) (len : Nat) : List Nat :=
  (List.range len).map (fun i => hex_to_ul ((t.drop (9 + 2 * i)).take 2))

/-- Processing of one assembled line by `unhex` (lines 830-860): parse the
fixed fields, check the colon and the line length (a failed check is the
line-numbered `fail`, modelled as `none`), then dispatch on the record type:
0 = data (a new output file starts iff none is open or the record's absolute
address `upper | lower` differs from the cursor), 1 = EOF (close the file),
4 = extended linear address; other record types are ignored. -/
def unhexLine (t : List Nat) (st : UnhexState) : Option UnhexState :=
  let len := hex_to_ul ((t.drop 1).take 2)
  let lower := hex_to_ul ((t.drop 3).take 4)
  let ty := hex_to_ul ((t.drop 7).take 2)
  let addr := st.upper ||| lower
  if t.headD 0 ≠ 58 then none
  else if t.length ≠ 1 + 2 + 4 + 2 + len * 2 + 2 then none
  else if ty = 0 then
    let st1 :=
      if st.cur = none ∨ st.next ≠ addr then
        ⟨st.upper, st.next, some (addr, []), unhexClose st⟩
      else st
    match st1.cur with
    | some f => some ⟨st1.upper, addr + len, some (f.1, f.2 ++ unhexDataBytes t len), st1.done⟩
    | none => none
  else if ty = 1 then some ⟨st.upper, st.next, none, unhexClose st⟩
  else if ty = 4 then some ⟨hex_to_ul ((t.drop 9).take 4) <<< 16, st.next, st.cur, st.done⟩
  else some st

/-- Processing of a list of assembled lines in order. -/
def unhexLines : List (List Nat) → UnhexState → Option UnhexState
  | [], st => some st
  | t :: rest, st =>
      match unhexLine t st with
      | none => none
      | some st1 => unhexLines rest st1

/-- The full `unhex` run on a character stream: split it into lines, process
each, and close the still-open output file at EOF; the result is the list of
created `ADDR.bin` files as (address, contents) pairs. -/
def unhex (input : List Nat) : Option (List (Nat × List Nat)) :=
  match unhexLines (splitLinesAux input []) ⟨0, 0, none, []⟩ with
  | none => none
  | some st => some (unhexClose st)

/-! ## Claim C4: HEX round-trip lemmas -/

theorem hexVal_hexDigitChar : ∀ d < 16, hexVal (hexDigitChar d) = d := by decide

theorem hexDigitChar_not_space : ∀ d < 16, isspace_c (hexDigitChar d) = false := by decide

theorem shiftLeft4_or (v d : Nat) (h : d < 16) : (v <<< 4) ||| d = v * 16 + d := by
  have h1 : v <<< 4 = 2 ^ 4 * v := by rw [Nat.shiftLeft_eq]; ring
  have hd : d < 2 ^ 4 := by norm_num at *; omega
  rw [h1, ← Nat.mul_add_lt_is_or hd v]
  ring

theorem or_65536 (q r : Nat) (h : r < 65536) : q * 65536 ||| r = q * 65536 + r := by
  have hr : r < 2 ^ 16 := by norm_num at *; omega
  have := Nat.mul_add_lt_is_or hr q
  rw [show (2 : Nat) ^ 16 * q = q * 65536 by ring] at this
  exact this.symm

theorem hex_to_ul_hex2 (v : Nat) (h : v < 256) : hex_to_ul (hex2 v) = v := by
  have h1 : v / 16 % 16 < 16 := Nat.mod_lt _ (by norm_num)
  have h2 : v % 16 < 16 := Nat.mod_lt _ (by norm_num)
  simp only [hex_to_ul, hex2, List.foldl_cons, List.foldl_nil]
  rw [hexVal_hexDigitChar _ h1, hexVal_hexDigitChar _ h2,
    shiftLeft4_or _ _ h1, shiftLeft4_or _ _ h2]
  omega

theorem hex_to_ul_append (t1 t2 : List Nat) :
    hex_to_ul (t1 ++ t2) = t2.foldl (fun v c => (v <<< 4) ||| hexVal c) (hex_to_ul t1) := by
  simp [hex_to_ul, List.foldl_append]

theorem hex_to_ul_hex2_hex2 (a b : Nat) (ha : a < 256) (hb : b < 256) :
    hex_to_ul (hex2 a ++ hex2 b) = a * 256 + b := by
  have h1 : b / 16 % 16 < 16 := Nat.mod_lt _ (by norm_num)
  have h2 : b % 16 < 16 := Nat.mod_lt _ (by norm_num)
  rw [hex_to_ul_append, hex_to_ul_hex2 a ha]
  simp only [hex2, List.foldl_cons, List.foldl_nil]
  rw [hexVal_hexDigitChar _ h1, hexVal_hexDigitChar _ h2,
    shiftLeft4_or _ _ h1, shiftLeft4_or _ _ h2]
  omega

theorem hex_to_ul_hex4 (v : Nat) (h : v < 65536) : hex_to_ul (hex4 v) = v := by
  unfold hex4
  rw [hex_to_ul_hex2_hex2 _ _ (Nat.mod_lt _ (by norm_num)) (Nat.mod_lt _ (by norm_num))]
  omega

theorem hex2_nonspace (v : Nat) : ∀ c ∈ hex2 v, isspace_c c = false := by
  intro c hc
  simp only [hex2, List.mem_cons, List.not_mem_nil, or_false] at hc
  rcases hc with h | h <;> subst h <;>
    exact hexDigitChar_not_space _ (Nat.mod_lt _ (by norm_num))

theorem printhexbody_nonspace (ty n addr : Nat) (data : List Nat) :
    ∀ c ∈ printhexbody ty n addr data, isspace_c c = false := by
  intro c hc
  simp only [printhexbody, hex4, List.mem_cons, List.mem_append, List.mem_flatMap] at hc
  rcases hc with rfl | ((((h | (h | h)) | h) | ⟨b, _, h⟩) | h)
  · rfl
  all_goals exact hex2_nonspace _ c h

theorem length_flatMap_hex2 (data : List Nat) : (data.flatMap hex2).length = 2 * data.length := by
  induction data with
  | nil => rfl
  | cons b ds ih =>
      simp only [List.flatMap_cons, List.length_append, ih, hex2, List.length_cons,
        List.length_nil]
      omega

theorem printhexbody_length (ty n addr : Nat) (data : List Nat) :
    (printhexbody ty n addr data).length = 11 + 2 * data.length := by
  simp only [printhexbody, List.length_cons, List.length_append, length_flatMap_hex2,
    hex2, hex4, List.length_nil]
  omega

theorem splitLinesAux_wf_line (body : List Nat) : ∀ (acc rest : List Nat),
    (∀ c ∈ body, isspace_c c = false) → acc.length + body.length < 600 →
    splitLinesAux (body ++ 10 :: rest) acc = (acc ++ body) :: splitLinesAux rest [] := by
  induction body with
  | nil =>
      intro acc rest _ hlen
      have h600 : ¬ (600 ≤ acc.length) := by simp at hlen; omega
      simp [splitLinesAux, isspace_c, h600]
  | cons c cs ih =>
      intro acc rest hb hlen
      have hc := hb c (by simp)
      have hc10 : c ≠ 10 := by
        intro h
        rw [h] at hc
        simp [isspace_c] at hc
      have hlt : ¬ (600 ≤ (acc ++ [c]).length ∨ c = 10) := by
        simp at hlen ⊢
        exact ⟨by omega, hc10⟩
      simp only [List.cons_append, splitLinesAux, hc, Bool.false_eq_true, if_false, hlt,
        List.append_eq]
      rw [ih (acc ++ [c]) rest (fun x hx => hb x (by simp [hx])) (by simp at hlen ⊢; omega)]
      simp

theorem drop_add_two (x y : Nat) (L : List Nat) (k : Nat) :
    (x :: y :: L).drop (k + 2) = L.drop k := by
  rw [show k + 2 = k + 1 + 1 from rfl, List.drop_succ_cons, List.drop_succ_cons]

theorem flatMap_hex2_drop_take (data : List Nat) : ∀ i < data.length, ∀ tail0 : List Nat,
    ((data.flatMap hex2 ++ tail0).drop (2 * i)).take 2 = hex2 (data.getD i 0) := by
  induction data with
  | nil => intro i hi; simp at hi
  | cons b ds ih =>
      intro i hi tail0
      cases i with
      | zero =>
          simp only [List.flatMap_cons, List.append_assoc]
          rw [Nat.mul_zero, List.drop_zero]
          rfl
      | succ j =>
          simp only [List.flatMap_cons, List.append_assoc]
          rw [show 2 * (j + 1) = 2 * j + 2 by omega]
          rw [show hex2 b ++ (ds.flatMap hex2 ++ tail0) =
            hexDigitChar (b / 16 % 16) :: hexDigitChar (b % 16) ::
              (ds.flatMap hex2 ++ tail0) from rfl]
          rw [drop_add_two]
          rw [show (b :: ds).getD (j + 1) 0 = ds.getD j 0 from rfl]
          exact ih j (by simpa using hi) tail0

theorem unhexDataBytes_flat (data tail0 : List Nat) (h : ∀ b ∈ data, b < 256) :
    (List.range data.length).map
      (fun i => hex_to_ul (((data.flatMap hex2 ++ tail0).drop (2 * i)).take 2)) = data := by
  apply List.ext_getElem
  · simp
  · intro i h1 h2
    simp only [List.getElem_map, List.getElem_range]
    rw [flatMap_hex2_drop_take data i (by simpa using h1) tail0]
    have hg : data.getD i 0 = data[i] := List.getD_eq_getElem data 0 h2
    rw [hg, hex_to_ul_hex2 _ (h _ (List.getElem_mem h2))]

theorem unhexLine_eof (st : UnhexState) :
    unhexLine (printhexbody 1 0 0 []) st = some ⟨st.upper, st.next, none, unhexClose st⟩ := rfl

theorem unhexLine_hi (h1 h2 : Nat) (st : UnhexState) (hh1 : h1 < 256) (hh2 : h2 < 256) :
    unhexLine (printhexbody 4 2 0 [h1, h2]) st =
      some ⟨(h1 * 256 + h2) <<< 16, st.next, st.cur, st.done⟩ := by
  have e1 : hex_to_ul (((printhexbody 4 2 0 [h1, h2]).drop 1).take 2) = 2 := by
    rw [show ((printhexbody 4 2 0 [h1, h2]).drop 1).take 2 = hex2 2 from rfl]
    exact hex_to_ul_hex2 2 (by norm_num)
  have e7 : hex_to_ul (((printhexbody 4 2 0 [h1, h2]).drop 7).take 2) = 4 := by
    rw [show ((printhexbody 4 2 0 [h1, h2]).drop 7).take 2 = hex2 4 from rfl]
    exact hex_to_ul_hex2 4 (by norm_num)
  have e9 : hex_to_ul (((printhexbody 4 2 0 [h1, h2]).drop 9).take 4) = h1 * 256 + h2 := by
    rw [show ((printhexbody 4 2 0 [h1, h2]).drop 9).take 4 = hex2 h1 ++ hex2 h2 from rfl]
    exact hex_to_ul_hex2_hex2 h1 h2 hh1 hh2
  have elen : (printhexbody 4 2 0 [h1, h2]).length = 15 := by
    rw [printhexbody_length]
    rfl
  have e0 : (printhexbody 4 2 0 [h1, h2]).headD 0 = 58 := rfl
  simp only [unhexLine, e1, e7, e9, elen]
  rw [if_neg (by rw [e0]; omega), if_neg (by omega), if_neg (by omega), if_neg (by omega)]
  simp

theorem unhexLine_data_new (a16 : Nat) (data : List Nat) (st : UnhexState)
    (hn : data.length < 256) (ha : a16 < 65536) (hdata : ∀ b ∈ data, b < 256)
    (hnew : st.cur = none ∨ st.next ≠ st.upper ||| a16) :
    unhexLine (printhexbody 0 data.length a16 data) st =
      some ⟨st.upper, (st.upper ||| a16) + data.length,
        some (st.upper ||| a16, data), unhexClose st⟩ := by
  have e1 : hex_to_ul (((printhexbody 0 data.length a16 data).drop 1).take 2) = data.length := by
    rw [show ((printhexbody 0 data.length a16 data).drop 1).take 2 = hex2 data.length from rfl]
    exact hex_to_ul_hex2 _ hn
  have e3 : hex_to_ul (((printhexbody 0 data.length a16 data).drop 3).take 4) = a16 := by
    rw [show ((printhexbody 0 data.length a16 data).drop 3).take 4 =
      hex4 (a16 % 65536) from rfl]
    rw [Nat.mod_eq_of_lt ha]
    exact hex_to_ul_hex4 _ ha
  have e7 : hex_to_ul (((printhexbody 0 data.length a16 data).drop 7).take 2) = 0 := by
    rw [show ((printhexbody 0 data.length a16 data).drop 7).take 2 = hex2 0 from rfl]
    exact hex_to_ul_hex2 0 (by norm_num)
  have elen : (printhexbody 0 data.length a16 data).length =
      1 + 2 + 4 + 2 + data.length * 2 + 2 := by
    rw [printhexbody_length]
    omega
  have e0 : (printhexbody 0 data.length a16 data).headD 0 = 58 := rfl
  have edata : unhexDataBytes (printhexbody 0 data.length a16 data) data.length = data := by
    unfold unhexDataBytes
    have hdrop : ∀ i : Nat, (printhexbody 0 data.length a16 data).drop (9 + 2 * i) =
        (data.flatMap hex2 ++ hex2 (printhexcs 0 data.length a16 data)).drop (2 * i) := by
      intro i
      rw [← List.drop_drop]
      rfl
    simp only [hdrop]
    exact unhexDataBytes_flat data _ hdata
  simp only [unhexLine, e1, e3, e7, elen, edata]
  rw [if_neg (by rw [e0]; omega), if_neg (by omega)]
  simp only [if_true]
  rw [if_pos hnew]
  simp

theorem unhexLine_data_cont (a16 : Nat) (data : List Nat) (st : UnhexState)
    (f : Nat × List Nat)
    (hn : data.length < 256) (ha : a16 < 65536) (hdata : ∀ b ∈ data, b < 256)
    (hcur : st.cur = some f) (hnext : st.next = st.upper ||| a16) :
    unhexLine (printhexbody 0 data.length a16 data) st =
      some ⟨st.upper, (st.upper ||| a16) + data.length,
        some (f.1, f.2 ++ data), st.done⟩ := by
  have e1 : hex_to_ul (((printhexbody 0 data.length a16 data).drop 1).take 2) = data.length := by
    rw [show ((printhexbody 0 data.length a16 data).drop 1).take 2 = hex2 data.length from rfl]
    exact hex_to_ul_hex2 _ hn
  have e3 : hex_to_ul (((printhexbody 0 data.length a16 data).drop 3).take 4) = a16 := by
    rw [show ((printhexbody 0 data.length a16 data).drop 3).take 4 =
      hex4 (a16 % 65536) from rfl]
    rw [Nat.mod_eq_of_lt ha]
    exact hex_to_ul_hex4 _ ha
  have e7 : hex_to_ul (((printhexbody 0 data.length a16 data).drop 7).take 2) = 0 := by
    rw [show ((printhexbody 0 data.length a16 data).drop 7).take 2 = hex2 0 from rfl]
    exact hex_to_ul_hex2 0 (by norm_num)
  have elen : (printhexbody 0 data.length a16 data).length =
      1 + 2 + 4 + 2 + data.length * 2 + 2 := by
    rw [printhexbody_length]
    omega
  have e0 : (printhexbody 0 data.length a16 data).headD 0 = 58 := rfl
  have edata : unhexDataBytes (printhexbody 0 data.length a16 data) data.length = data := by
    unfold unhexDataBytes
    have hdrop : ∀ i : Nat, (printhexbody 0 data.length a16 data).drop (9 + 2 * i) =
        (data.flatMap hex2 ++ hex2 (printhexcs 0 data.length a16 data)).drop (2 * i) := by
      intro i
      rw [← List.drop_drop]
      rfl
    simp only [hdrop]
    exact unhexDataBytes_flat data _ hdata
  have hno : ¬ (st.cur = none ∨ st.next ≠ st.upper ||| a16) := by
    push_neg
    exact ⟨by simp [hcur], hnext⟩
  simp only [unhexLine, e1, e3, e7, elen, edata]
  rw [if_neg (by rw [e0]; omega), if_neg (by omega)]
  simp only [if_true]
  rw [if_neg hno]
  simp [hcur]

theorem unhexLines_cons (t : List Nat) (rest : List (List Nat)) (st st1 : UnhexState)
    (h : unhexLine t st = some st1) :
    unhexLines (t :: rest) st = unhexLines rest st1 := by
  simp [unhexLines, h]

theorem mkhexLoop_nil (a : Nat) : mkhexLoop a [] = mkhexHiCheck a := by
  unfold mkhexLoop
  simp

theorem mkhexLoop_small (a : Nat) (rem : List Nat) (h1 : rem ≠ []) (h2 : rem.length < 16) :
    mkhexLoop a rem = mkhexHiCheck a ++ printhexline 0 rem.length (a % 65536) rem := by
  unfold mkhexLoop
  rw [if_neg (by simp [h1]), if_pos h2]

theorem mkhexLoop_big (a : Nat) (rem : List Nat) (h : 16 ≤ rem.length) :
    mkhexLoop a rem = mkhexHiCheck a ++
      printhexline 0 (rem.take 16).length (a % 65536) (rem.take 16) ++
      mkhexLoop (a + 16) (rem.drop 16) := by
  have hlen : (rem.take 16).length = 16 := by
    rw [List.length_take]
    omega
  conv_rhs => rw [hlen]
  conv_lhs => rw [mkhexLoop.eq_def]
  rw [if_neg (by omega), if_neg (by omega)]

theorem mkhexFileLoop_eq (rem : List Nat) : ∀ (buf : List Nat) (addr : Nat),
    buf.length < 16 → mkhexFileLoop addr buf rem = mkhexLoop addr (buf ++ rem) := by
  induction rem with
  | nil =>
      intro buf addr h
      by_cases hb : buf.length = 0
      · have hnil : buf = [] := List.length_eq_zero.mp hb
        subst hnil
        rw [show ([] : List Nat) ++ [] = [] from rfl, mkhexLoop_nil]
        simp [mkhexFileLoop]
      · rw [List.append_nil, mkhexLoop_small addr buf
          (fun hc => hb (by rw [hc]; rfl)) h]
        simp [mkhexFileLoop, hb]
  | cons c rest ih =>
      intro buf addr h
      by_cases hfull : 16 ≤ (buf ++ [c]).length
      · have h15 : buf.length = 15 := by
          simp at hfull ⊢
          omega
        have h16 : (buf ++ [c]).length = 16 := by
          simp
          omega
        have htake : (buf ++ c :: rest).take 16 = buf ++ [c] := by
          rw [show (16 : Nat) = buf.length + 1 by omega, List.take_append]
          rfl
        have hdrop : (buf ++ c :: rest).drop 16 = rest := by
          rw [show (16 : Nat) = buf.length + 1 by omega, List.drop_append]
          rfl
        rw [show mkhexFileLoop addr buf (c :: rest) =
          mkhexHiCheck addr ++
            printhexline 0 (buf ++ [c]).length (addr % 65536) (buf ++ [c]) ++
            mkhexFileLoop (addr + (buf ++ [c]).length) [] rest
          from by rw [mkhexFileLoop, if_pos hfull]]
        rw [ih [] (addr + (buf ++ [c]).length) (by norm_num)]
        rw [mkhexLoop_big addr (buf ++ c :: rest) (by simp; omega)]
        rw [htake, hdrop, h16]
        simp
      · rw [show mkhexFileLoop addr buf (c :: rest) =
          mkhexFileLoop addr (buf ++ [c]) rest
          from by rw [mkhexFileLoop, if_neg hfull]]
        rw [ih (buf ++ [c]) addr (by simp at hfull ⊢; omega)]
        simp

theorem splitLines_mkhexHiCheck (a : Nat) (restStream : List Nat) :
    splitLinesAux (mkhexHiCheck a ++ restStream) [] =
      (if 65535 ≤ a ∧ a % 65536 = 0 then
        [printhexbody 4 2 0 [a / 16777216 % 256, a / 65536 % 256]] else []) ++
      splitLinesAux restStream [] := by
  unfold mkhexHiCheck
  split_ifs with h
  · unfold printhexhiaddrline printhexline
    rw [List.append_assoc, List.singleton_append]
    rw [splitLinesAux_wf_line _ [] restStream (printhexbody_nonspace _ _ _ _)
      (by rw [List.length_nil, printhexbody_length]; norm_num)]
    simp
  · simp

theorem splitLines_printhexline (ty n addr : Nat) (data : List Nat) (restStream : List Nat)
    (hn : n = data.length) (h16 : data.length ≤ 16) :
    splitLinesAux (printhexline ty n addr data ++ restStream) [] =
      printhexbody ty n addr data :: splitLinesAux restStream [] := by
  unfold printhexline
  rw [List.append_assoc, List.singleton_append]
  rw [splitLinesAux_wf_line _ [] restStream (printhexbody_nonspace _ _ _ _)
    (by rw [List.length_nil, printhexbody_length]; omega)]
  simp

theorem unhex_chunk_step (A : Nat) (pre chunk : List Nat) (st : UnhexState)
    (hA : 65535 < A) (hA32 : A < 4294967296)
    (hchunk : ∀ b ∈ chunk, b < 256) (hchlen : chunk.length < 256)
    (hup : st.upper = A / 65536 * 65536) (hdone : st.done = [])
    (hsame : (A + pre.length) / 65536 = A / 65536)
    (hinv : (st.cur = some (A, pre) ∧ st.next = A + pre.length) ∨
      (st.cur = none ∧ pre = []))
    (lines : List (List Nat)) :
    unhexLines ((if 65535 ≤ A + pre.length ∧ (A + pre.length) % 65536 = 0 then
        [printhexbody 4 2 0
          [(A + pre.length) / 16777216 % 256, (A + pre.length) / 65536 % 256]]
      else []) ++
      printhexbody 0 chunk.length ((A + pre.length) % 65536) chunk :: lines) st =
    unhexLines lines
      ⟨st.upper, A + pre.length + chunk.length, some (A, pre ++ chunk), []⟩ := by
  have hmod : (A + pre.length) % 65536 < 65536 := Nat.mod_lt _ (by norm_num)
  have haddr : st.upper ||| ((A + pre.length) % 65536) = A + pre.length := by
    rw [hup, or_65536 _ _ hmod]
    omega
  by_cases hhi : 65535 ≤ A + pre.length ∧ (A + pre.length) % 65536 = 0
  · have ha0 : A + pre.length = A := by omega
    rw [if_pos hhi, List.cons_append, List.nil_append]
    rw [unhexLines_cons _ _ _ _
      (unhexLine_hi _ _ st (Nat.mod_lt _ (by norm_num)) (Nat.mod_lt _ (by norm_num)))]
    have hU : ((A + pre.length) / 16777216 % 256 * 256 +
        (A + pre.length) / 65536 % 256) <<< 16 = st.upper := by
      rw [hup, Nat.shiftLeft_eq, show (2 : Nat) ^ 16 = 65536 from by norm_num]
      omega
    rw [hU]
    rcases hinv with ⟨hcur, hnext⟩ | ⟨hcur, hpre0⟩
    · rw [unhexLines_cons _ _ _ _
        (unhexLine_data_cont ((A + pre.length) % 65536) chunk
          ⟨st.upper, st.next, st.cur, st.done⟩ (A, pre) hchlen hmod hchunk
          (by simpa using hcur) (by simpa using hnext ▸ haddr.symm))]
      rw [haddr, hdone]
    · rw [unhexLines_cons _ _ _ _
        (unhexLine_data_new ((A + pre.length) % 65536) chunk
          ⟨st.upper, st.next, st.cur, st.done⟩ hchlen hmod hchunk
          (Or.inl (by simpa using hcur)))]
      rw [haddr]
      have hclose : unhexClose ⟨st.upper, st.next, st.cur, st.done⟩ = [] := by
        simp [unhexClose, hcur, hdone]
      rw [hclose]
      simp [hpre0]
  · rw [if_neg hhi, List.nil_append]
    rcases hinv with ⟨hcur, hnext⟩ | ⟨hcur, hpre0⟩
    · rw [unhexLines_cons _ _ _ _
        (unhexLine_data_cont ((A + pre.length) % 65536) chunk st (A, pre)
          hchlen hmod hchunk hcur (hnext ▸ haddr.symm))]
      rw [haddr, hdone]
    · rw [unhexLines_cons _ _ _ _
        (unhexLine_data_new ((A + pre.length) % 65536) chunk st
          hchlen hmod hchunk (Or.inl hcur))]
      rw [haddr]
      have hclose : unhexClose st = [] := by
        simp [unhexClose, hcur, hdone]
      rw [hclose]
      simp [hpre0]

theorem splitLines_eofline :
    splitLinesAux (printhexline 1 0 0 []) [] = [printhexbody 1 0 0 []] := by
  rw [← List.append_nil (printhexline 1 0 0 [])]
  rw [splitLines_printhexline 1 0 0 [] [] rfl (by norm_num)]
  rfl

theorem unhex_mkhexLoop_main (A : Nat) (B : List Nat) (hA : 65535 < A)
    (hA32 : A < 4294967296) (hbytes : ∀ b ∈ B, b < 256) (hBne : B ≠ [])
    (hbank : A / 65536 = (A + B.length - 1) / 65536) :
    ∀ (n : Nat) (rem pre : List Nat) (st : UnhexState), rem.length = n → pre ++ rem = B →
      st.upper = A / 65536 * 65536 → st.done = [] →
      ((st.cur = some (A, pre) ∧ st.next = A + pre.length) ∨ (st.cur = none ∧ pre = [])) →
      ∃ u, unhexLines
          (splitLinesAux (mkhexLoop (A + pre.length) rem ++ printhexline 1 0 0 []) []) st =
        some ⟨u, A + B.length, none, [(A, B)]⟩ := by
  intro n
  induction n using Nat.strong_induction_on with
  | _ n ih =>
    intro rem pre st hlen hpre hup hdone hinv
    have hBlen : pre.length + rem.length = B.length := by
      rw [← hpre]
      simp
    by_cases h0 : rem.length = 0
    · have hremnil : rem = [] := List.length_eq_zero.mp h0
      subst hremnil
      have hpreB : pre = B := by simpa using hpre
      rcases hinv with ⟨hcur, hnext⟩ | ⟨hcur, hnil⟩
      swap
      · exact absurd (hpreB ▸ hnil.symm).symm hBne
      · rw [mkhexLoop_nil, splitLines_mkhexHiCheck, splitLines_eofline]
        by_cases hhi : 65535 ≤ A + pre.length ∧ (A + pre.length) % 65536 = 0
        · rw [if_pos hhi, List.cons_append, List.nil_append]
          rw [unhexLines_cons _ _ _ _
            (unhexLine_hi _ _ st (Nat.mod_lt _ (by norm_num)) (Nat.mod_lt _ (by norm_num)))]
          rw [unhexLines_cons _ _ _ _ (unhexLine_eof _)]
          refine ⟨((A + pre.length) / 16777216 % 256 * 256 +
            (A + pre.length) / 65536 % 256) <<< 16, ?_⟩
          simp only [unhexLines]
          have : unhexClose ⟨((A + pre.length) / 16777216 % 256 * 256 +
              (A + pre.length) / 65536 % 256) <<< 16, st.next, st.cur, st.done⟩ =
              [(A, B)] := by
            simp [unhexClose, hcur, hdone, hpreB]
          rw [this, hnext, hpreB]
        · rw [if_neg hhi, List.nil_append]
          rw [unhexLines_cons _ _ _ _ (unhexLine_eof _)]
          refine ⟨st.upper, ?_⟩
          simp only [unhexLines]
          have : unhexClose st = [(A, B)] := by
            simp [unhexClose, hcur, hdone, hpreB]
          rw [this, hnext, hpreB]
    · have hsame : (A + pre.length) / 65536 = A / 65536 := by omega
      by_cases hsmall : rem.length < 16
      · have hremne : rem ≠ [] := by
          intro h
          rw [h] at h0
          exact h0 rfl
        rw [mkhexLoop_small _ _ hremne hsmall, List.append_assoc, splitLines_mkhexHiCheck,
          splitLines_printhexline 0 rem.length _ rem _ rfl (by omega), splitLines_eofline]
        have hrb : ∀ b ∈ rem, b < 256 := by
          intro b hb
          exact hbytes b (hpre ▸ List.mem_append_right pre hb)
        rw [unhex_chunk_step A pre rem st hA hA32 hrb (by omega) hup hdone hsame hinv]
        rw [unhexLines_cons _ _ _ _ (unhexLine_eof _)]
        refine ⟨st.upper, ?_⟩
        simp only [unhexLines]
        have : unhexClose ⟨st.upper, A + pre.length + rem.length,
            some (A, pre ++ rem), []⟩ = [(A, B)] := by
          simp [unhexClose, hpre]
        rw [this]
        have : A + pre.length + rem.length = A + B.length := by omega
        rw [this]
      · have h16 : 16 ≤ rem.length := by omega
        rw [mkhexLoop_big _ _ h16, List.append_assoc, List.append_assoc,
          splitLines_mkhexHiCheck,
          splitLines_printhexline 0 (rem.take 16).length _ (rem.take 16) _ rfl
            (by rw [List.length_take]; omega)]
        have hrb : ∀ b ∈ rem.take 16, b < 256 := by
          intro b hb
          exact hbytes b (hpre ▸ List.mem_append_right pre (List.mem_of_mem_take hb))
        rw [unhex_chunk_step A pre (rem.take 16) st hA hA32 hrb
          (by rw [List.length_take]; omega) hup hdone hsame hinv]
        have htk : (rem.take 16).length = 16 := by
          rw [List.length_take]
          omega
        have hstep := ih (rem.drop 16).length
          (by rw [List.length_drop]; omega)
          (rem.drop 16) (pre ++ rem.take 16)
          ⟨st.upper, A + pre.length + (rem.take 16).length,
            some (A, pre ++ rem.take 16), []⟩
          rfl
          (by rw [List.append_assoc, List.take_append_drop]; exact hpre)
          (by simpa using hup)
          rfl
          (Or.inl ⟨rfl, by simp [htk]; omega⟩)
        obtain ⟨u, hu⟩ := hstep
        refine ⟨u, ?_⟩
        have harg : A + (pre ++ rem.take 16).length = A + pre.length + (rem.take 16).length := by
          simp
          omega
        rw [harg] at hu
        simp only [htk] at hu ⊢
        exact hu

/-- Claim C4 (amended): for a single `(address, bytes)` pair with
`0xFFFF < address < 2^32`, non-empty byte contents, and all bytes within one
64 KiB bank (the last byte's address has the same upper 16 bits as the
first's), decoding the Intel HEX text emitted by `mkhex` reproduces exactly
one contiguous segment with the same starting address and payload. -/
theorem unhex_mkhex_roundtrip (A : Nat) (B : List Nat) (hA : 65535 < A)
    (hA32 : A < 4294967296) (hbytes : ∀ b ∈ B, b < 256) (hBne : B ≠ [])
    (hbank : A / 65536 = (A + B.length - 1) / 65536) :
    unhex (mkhex A B) = some [(A, B)] := by
  unfold unhex mkhex
  rw [mkhexFileLoop_eq B [] A (by norm_num), List.nil_append, List.append_assoc]
  rw [show printhexhiaddrline A =
    printhexline 4 2 0 [A / 16777216 % 256, A / 65536 % 256] from rfl]
  rw [splitLines_printhexline 4 2 0 [A / 16777216 % 256, A / 65536 % 256] _ rfl
    (by norm_num)]
  rw [unhexLines_cons _ _ _ _ (unhexLine_hi _ _ ⟨0, 0, none, []⟩
    (Nat.mod_lt _ (by norm_num)) (Nat.mod_lt _ (by norm_num)))]
  have hU : (A / 16777216 % 256 * 256 + A / 65536 % 256) <<< 16 = A / 65536 * 65536 := by
    rw [Nat.shiftLeft_eq, show (2 : Nat) ^ 16 = 65536 from by norm_num]
    omega
  rw [hU]
  obtain ⟨u, hu⟩ := unhex_mkhexLoop_main A B hA hA32 hbytes hBne hbank B.length B []
    ⟨A / 65536 * 65536, 0, none, []⟩ rfl (by simp) rfl rfl (Or.inr ⟨rfl, rfl⟩)
  simp only [List.length_nil, Nat.add_zero] at hu
  rw [hu]
  rfl

/-- Claim C4 counterexample: the pair `(0x1FFF1, 17 × 0x41)` crosses the
64 KiB bank boundary 0x20000 in mid-record; the encoder emits no new
extended-linear-address record there, so the decoder restarts a segment at
the stale bank and produces two files — `(0x1FFF1, 16 bytes)` and
`(0x10001, 1 byte)` — instead of one segment equal to the input. -/
theorem unhex_mkhex_cex :
    unhex (mkhex 131057 (List.replicate 17 65)) =
      some [(131057, List.replicate 16 65), (65537, [65])] ∧
    unhex (mkhex 131057 (List.replicate 17 65)) ≠
      some [(131057, List.replicate 17 65)] := by decide

/-- Witness for C4 at the spec's own example pair `(0x20000, [0xAA, 0xBB])`. -/
theorem unhex_mkhex_roundtrip_witness :
    unhex (mkhex 131072 [170, 187]) = some [(131072, [170, 187])] :=
  unhex_mkhex_roundtrip 131072 [170, 187] (by norm_num) (by norm_num)
    (by decide) (by decide) (by norm_num)
